import Mathlib

/-!
Verification of the tool-call orchestration engine of a client-side
conversational agent (chat-controller.js, tool-orchestrator.js).

The JavaScript source is shallowly embedded: each handler or helper becomes a
pure Lean function; mutable module state becomes an explicit `AgentState`
record; asynchronous model/retrieval calls become oracle parameters
(`Except`-valued for fallible calls); UI emissions (`UIController.addMessage`)
become an append-only list of structured messages.
-/

/-- The user-visible messages emitted through UIController.addMessage with role ai.
Each constructor stands for one message template of the source, with its
variable parts as payload. -/
inductive UiMsg where
  /-- Message "Error: No valid search query could be determined…" (web_search handler) -/
  | invalidQuery : UiMsg
  /-- Message "Web search failed for query: err" -/
  | searchTransportFailed (query err : String) : UiMsg
  /-- Message "No search results found for query." -/
  | noResults (query : String) : UiMsg
  /-- Message "Search results for args.query were not relevant after 3 attempts." -/
  | notRelevant (argsQuery : Option String) : UiMsg
  /-- Message "Collected the following URLs for further reading…" -/
  | collectedUrls (urls : List String) : UiMsg
  /-- Message "Web search failed. I will try to answer your question based on…" -/
  | searchFallback : UiMsg
  /-- Message "Error: Web search tool was called with an empty query…" (processToolCall guard) -/
  | emptyQueryError : UiMsg
  /-- Message "Error: Tool call loop detected. The same tool call has been made more than 3 times…" -/
  | loopDetected : UiMsg
  /-- Message "Error: Invalid read_url argument." -/
  | invalidReadUrl : UiMsg
  /-- Rendered read result UIController.addReadResult(url, snippet, hasMore) -/
  | readResult (url snippet : String) (hasMore : Bool) : UiMsg
  /-- Message "Read URL failed: err" -/
  | readUrlFailed (err : String) : UiMsg
  /-- Message "Final Answer: …" -/
  | finalAnswerMsg (text : String) : UiMsg
  /-- Message "Final answer synthesis failed. Error: …" -/
  | synthesisFailed (err : String) : UiMsg
  deriving DecidableEq, Repr

/-- A chat-history entry with a role and a content string. -/
structure Message where
  role : String
  content : String
  deriving DecidableEq, Repr

/-- Arguments object of a tool call.  The source passes a JSON object; the
fields used by the three registered tools are `query`, `url`, `start`,
`length`, `engine`; a missing field is `none`. -/
structure ToolArgs where
  query : Option String := none
  url : Option String := none
  start : Option Int := none
  length : Option Int := none
  engine : Option String := none
  deriving DecidableEq, Repr

/-- A tool call (tool, arguments, skipContinue) as dispatched by
`processToolCall`. -/
structure ToolCall where
  tool : String
  args : ToolArgs
  skipContinue : Bool := false
  deriving DecidableEq, Repr

/-- The loop-guard signature, JSON.stringify of tool and args: two calls have
equal signature strings exactly when tool name and arguments object coincide
(`skipContinue` is not part of the signature). -/
abbrev Sig := String × ToolArgs

/-- Signature of a call, the stringified pair of tool and args. -/
def callSig (c : ToolCall) : Sig := (c.tool, c.args)

/-- The mutable module-level state of chat-controller.js that the claims
concern, plus the UI emission log and the Retrieval-Gateway fetch log
(observables of the external boundaries). -/
structure AgentState where
  chatHistory : List Message := []
  readSnippets : List String := []
  lastToolCall : Option Sig := none
  lastToolCallCount : Nat := 0
  toolCallHistory : List Sig := []
  originalUserQuestion : String := ""
  toolWorkflowActive : Bool := true
  ui : List UiMsg := []
  fetchLog : List String := []
  deriving DecidableEq, Repr

/-- Models UIController.addMessage(ai, m). -/
def pushUi (m : UiMsg) (s : AgentState) : AgentState :=
  { s with ui := s.ui ++ [m] }

/-- Models chatHistory.push of a (role, content) entry. -/
def pushHist (role content : String) (s : AgentState) : AgentState :=
  { s with chatHistory := s.chatHistory ++ [⟨role, content⟩] }

/-- JS `s.startsWith(pre)` (and the anchored regex tests of the source),
as a kernel-computable character-level prefix test. -/
def strStartsWith (s pre : String) : Bool := pre.data.isPrefixOf s.data

/-- JS `s.trim()`: strip whitespace from both ends. -/
def jsTrim (s : String) : String :=
  String.mk (((s.data.dropWhile Char.isWhitespace).reverse.dropWhile
    Char.isWhitespace).reverse)

/-- JS `s.toLowerCase()` (character-wise). -/
def jsToLower (s : String) : String := String.mk (s.data.map Char.toLower)

/-- JavaScript blank test on an optional string argument:
not q, or q not a string, or q.trim() empty. -/
def isBlank : Option String → Bool
  | none => true
  | some s => jsTrim s = ""

/-- Threshold `MAX_TOOL_CALL_REPEAT` (both modules). -/
def MAX_TOOL_CALL_REPEAT : Nat := 3

/-- One step of the loop-guard state `(lastToolCall, lastToolCallCount)`:
if the signature equals the previous one the counter is incremented,
otherwise the new signature is stored and the counter reset to 1
(chat-controller.js lines 815-821, identically tool-orchestrator.js 41-47). -/
def guardStep (sig : Sig) (g : Option Sig × Nat) : Option Sig × Nat :=
  if g.1 = some sig then (g.1, g.2 + 1) else (some sig, 1)

/-- The guard blocks when the updated counter exceeds the threshold
(`lastToolCallCount > MAX_TOOL_CALL_REPEAT`). -/
def guardBlocks (g : Option Sig × Nat) : Prop := MAX_TOOL_CALL_REPEAT < g.2

instance (g : Option Sig × Nat) : Decidable (guardBlocks g) := by
  unfold guardBlocks; infer_instance

/-- Iterating the guard on the same signature. -/
def guardIter (sig : Sig) : Nat → (Option Sig × Nat) → Option Sig × Nat
  | 0, g => g
  | n + 1, g => guardIter sig n (guardStep sig g)

/-- Dispatcher `processToolCall(call)` of chat-controller.js (lines 800-828), with the
handler invocation plus the continuation logic (lines 828-858) abstracted as
the parameter `exec` — the claims under verification only concern the steps
before the handler runs.  Order of steps, as in the source:
workflow-active gate, blank-query guard for `web_search`, loop guard,
audit-log append, handler. -/
def processToolCall (exec : ToolCall → AgentState → AgentState)
    (call : ToolCall) (s : AgentState) : AgentState :=
  if s.toolWorkflowActive = false then s
  else if call.tool = "web_search" ∧ isBlank call.args.query then
    pushUi .emptyQueryError s
  else
    let g := guardStep (callSig call) (s.lastToolCall, s.lastToolCallCount)
    let s := { s with lastToolCall := g.1, lastToolCallCount := g.2 }
    if MAX_TOOL_CALL_REPEAT < g.2 then
      pushUi .loopDetected s
    else
      exec call { s with toolCallHistory := s.toolCallHistory ++ [callSig call] }

/-- The private state of the ToolOrchestrator module (tool-orchestrator.js). -/
structure OrchState where
  toolCallHistory : List Sig := []
  lastToolCall : Option Sig := none
  lastToolCallCount : Nat := 0
  ui : List UiMsg := []
  deriving DecidableEq, Repr

/-- Variant `ToolOrchestrator.processToolCall(call, context)` (tool-orchestrator.js
lines 38-54): same loop guard and audit log, without the workflow-active and
blank-query gates; handler + continuation abstracted as `exec`. -/
def orchProcessToolCall (exec : ToolCall → OrchState → OrchState)
    (call : ToolCall) (s : OrchState) : OrchState :=
  let g := guardStep (callSig call) (s.lastToolCall, s.lastToolCallCount)
  let s := { s with lastToolCall := g.1, lastToolCallCount := g.2 }
  if MAX_TOOL_CALL_REPEAT < g.2 then
    { s with ui := s.ui ++ [.loopDetected] }
  else
    exec call { s with toolCallHistory := s.toolCallHistory ++ [callSig call] }

/-- First lines of `sendMessage()` relevant to the workflow gate
(chat-controller.js lines 477-481): an empty input returns immediately;
otherwise the user question is stored and the tool workflow re-armed. -/
def sendMessageStart (message : String) (s : AgentState) : AgentState :=
  if message = "" then s
  else { s with originalUserQuestion := message, toolWorkflowActive := true }

/-- Synthesizer `synthesizeFinalAnswer(summaries)` (chat-controller.js lines 1120-1155).
The model call (prompt construction and provider routing) is abstracted as
its `Except`-valued outcome `modelResult`; a provider family that produces no
text (neither gpt nor gemini/gemma) corresponds to `.ok ""`. -/
def synthesizeFinalAnswer (modelResult : Except String String)
    (summaries : String) (s : AgentState) : AgentState :=
  if summaries = "" ∨ s.originalUserQuestion = "" then s
  else
    match modelResult with
    | .ok finalAnswer =>
        let s := if finalAnswer ≠ "" then pushUi (.finalAnswerMsg finalAnswer) s else s
        { s with toolWorkflowActive := false }
    | .error e =>
        { pushUi (.synthesisFailed e) s with toolWorkflowActive := false }

/-! ### The `web_search` handler -/

/-- A search result carrying title, url and snippet. -/
structure SearchResult where
  title : String
  url : String
  snippet : String
  deriving DecidableEq, Repr

/-- The per-result callback of `ToolsService.webSearch` adds each truthy
result URL to the session set `allSearchUrls` (a JS `Set`: deduplicated,
insertion-ordered). -/
def addUrls (acc : List String) (results : List SearchResult) : List String :=
  results.foldl (fun a r => if r.url ≠ "" ∧ r.url ∉ a then a ++ [r.url] else a) acc

/-- Assessor `assessSearchQuality(results, userQuery)` (chat-controller.js lines 57-69).
Only a `gpt`-prefixed model issues a model call; otherwise `aiReply` stays
empty.  The reply text of the model is the oracle argument; the second component
counts the Model-Gateway calls issued. -/
def assessSearchQuality (selectedModel : String) (reply : String) : Bool × Nat :=
  let aiReply := if strStartsWith selectedModel "gpt" then jsToLower (jsTrim reply) else ""
  (strStartsWith aiReply "yes", if strStartsWith selectedModel "gpt" then 1 else 0)

/-- Refiner `getRefinedQuery(results, userQuery)` (chat-controller.js lines 72-84);
same model-family gating as the assessor. -/
def getRefinedQuery (selectedModel : String) (reply : String) : String × Nat :=
  let aiReply := if strStartsWith selectedModel "gpt" then jsTrim reply else ""
  (aiReply, if strStartsWith selectedModel "gpt" then 1 else 0)

/-- Observable outcome of one `web_search` handler invocation. -/
structure WSOut where
  ui : List UiMsg := []
  /-- queries passed to `ToolsService.webSearch`, in order -/
  attempts : List String := []
  allResults : List SearchResult := []
  allSearchUrls : List String := []
  assessorInvocations : Nat := 0
  refinerInvocations : Nat := 0
  /-- Model-Gateway calls issued by assessor and refiner together -/
  apiCalls : Nat := 0
  searchFailed : Bool := false
  /-- the no-tools fallback branch (lines 165-215) was entered -/
  fallbackTaken : Bool := false
  /-- Flag recording that `suggestResultsToRead` was invoked (line 217) -/
  suggestCalled : Bool := false
  finalQuery : String := ""
  deriving DecidableEq, Repr

/-- The bounded retry loop of the `web_search` handler (chat-controller.js
lines 119-154).  `fuel = maxRetries + 1 - retries`, so the initial call has
`fuel = 3` and the source test `retries < maxRetries` is `0 < fuel` at a
`fuel + 1` unfolding.  `searchO i` is the outcome of the `i`-th
`ToolsService.webSearch` call; `assessO`/`refineO` index model replies by
invocation count. -/
def webSearchLoop (selectedModel : String)
    (searchO : Nat → Except String (List SearchResult))
    (assessO refineO : Nat → String) (argsQuery : Option String) :
    Nat → String → Nat → WSOut → WSOut
  | 0, query, _, acc => { acc with finalQuery := query }
  | fuel + 1, query, idx, acc =>
    let acc := { acc with attempts := acc.attempts ++ [query] }
    match searchO idx with
    | .error err =>
        { acc with ui := acc.ui ++ [.searchTransportFailed query err],
                   searchFailed := true, finalQuery := query }
    | .ok results =>
        let acc := { acc with allSearchUrls := addUrls acc.allSearchUrls results,
                              allResults := acc.allResults ++ results }
        if results = [] then
          { acc with ui := acc.ui ++ [.noResults query], finalQuery := query }
        else
          let a := assessSearchQuality selectedModel (assessO acc.assessorInvocations)
          let acc := { acc with assessorInvocations := acc.assessorInvocations + 1,
                                apiCalls := acc.apiCalls + a.2 }
          if a.1 then { acc with finalQuery := query }
          else if 0 < fuel then
            let r := getRefinedQuery selectedModel (refineO acc.refinerInvocations)
            let acc := { acc with refinerInvocations := acc.refinerInvocations + 1,
                                  apiCalls := acc.apiCalls + r.2 }
            webSearchLoop selectedModel searchO assessO refineO argsQuery fuel r.1 (idx + 1) acc
          else
            { acc with ui := acc.ui ++ [.notRelevant argsQuery], finalQuery := query }

/-- Most recent user message with non-blank content, scanning history from the
end (chat-controller.js lines 96-103). -/
def lastUserMessage (h : List Message) : Option String :=
  (h.reverse.find? (fun m => decide (m.role = "user" ∧ jsTrim m.content ≠ ""))).map
    Message.content

/-- The `web_search` tool handler (chat-controller.js lines 88-218): query
recovery, the retry loop, URL collection report, then either the no-tools
fallback branch or `suggestResultsToRead` (both delegations recorded as
flags; their own model traffic is outside this handler). -/
def webSearchHandler (selectedModel : String)
    (searchO : Nat → Except String (List SearchResult))
    (assessO refineO : Nat → String)
    (args : ToolArgs) (originalUserQuestion : String) (history : List Message) : WSOut :=
  let query : Option String :=
    if isBlank args.query then
      if jsTrim originalUserQuestion ≠ "" then some originalUserQuestion
      else
        match lastUserMessage history with
        | some m => some m
        | none => args.query
    else args.query
  if isBlank query then
    { ui := [.invalidQuery] }
  else
    let out := webSearchLoop selectedModel searchO assessO refineO args.query
      3 (query.getD "") 0 {}
    let out := if out.allSearchUrls ≠ [] then
        { out with ui := out.ui ++ [.collectedUrls out.allSearchUrls] }
      else out
    if out.searchFailed = true ∨ out.allResults = [] then
      { out with ui := out.ui ++ [.searchFallback], fallbackTaken := true }
    else
      { out with suggestCalled := true }

/-! ### The `read_url` handler -/

/-- URL validation `/^https?:\/\//.test(url)` plus the preceding
truthiness/type test (chat-controller.js line 220). -/
def validReadUrl : Option String → Bool
  | none => false
  | some u => strStartsWith u "http://" || strStartsWith u "https://"

/-- Defaulting of start: 0 unless args.start is a number with args.start >= 0. -/
def defaultStart : Option Int → Nat
  | some v => if 0 ≤ v then v.toNat else 0
  | none => 0

/-- Defaulting of length: 1122 unless args.length is a number with args.length > 0. -/
def defaultLength : Option Int → Nat
  | some v => if 0 < v then v.toNat else 1122
  | none => 1122

/-- Slicing String(result).slice(start, start + length) for `start, length ≥ 0`
(character-level model of the JS slice). -/
def strSlice (s : String) (start len : Nat) : String :=
  String.mk ((s.data.drop start).take len)

/-- The `read_url` tool handler (chat-controller.js lines 219-247).  The page
fetch `ToolsService.readUrl(url)` is abstracted as its `Except`-valued
outcome; the fetch itself is recorded in `fetchLog`.  The
`addSummarizeButton` affordance (lines 237-239) is presentation-only and not
modeled. -/
def readUrlHandler (fetch : Except String String) (args : ToolArgs)
    (s : AgentState) : AgentState :=
  if validReadUrl args.url = false then pushUi .invalidReadUrl s
  else
    let url := args.url.getD ""
    let s := { s with fetchLog := s.fetchLog ++ [url] }
    match fetch with
    | .error e =>
        pushHist "assistant" ("Read URL failed: " ++ e) (pushUi (.readUrlFailed e) s)
    | .ok page =>
        let start := defaultStart args.start
        let len := defaultLength args.length
        let snippet := strSlice page start len
        let hasMore := decide (start + len < page.length)
        let s := pushUi (.readResult url snippet hasMore) s
        let plain := "Read content from " ++ url ++ ":\n" ++ snippet ++
          (if hasMore then "..." else "")
        let s := pushHist "assistant" plain s
        { s with readSnippets := s.readSnippets ++ [snippet] }

/-! ### The Deep-Reader -/

/-- A read-cache key: the source builds the string
url:start:chunkSize; modeled as the triple it encodes. -/
abbrev CacheKey := String × Nat × Nat

/-- The session `readCache` (`Map` of cache key to snippet text); `Map.set` on
a fresh key is modeled by consing. -/
abbrev ReadCache := List (CacheKey × String)

/-- Lookup readCache.has / readCache.get. -/
def lookupCache (c : ReadCache) (k : CacheKey) : Option String :=
  (c.find? (fun e => decide (e.1 = k))).map (fun e => e.2)

/-- The text `deepReadUrl` recovers for one window: the `read_url` handler
pushes `Read content from url:\n` ++ slice ++ (`...` iff more remains) to
history, and the Deep-Reader strips the first line back off
(split the content at newlines, drop the first line, rejoin). -/
def fetchSnippet (page : String) (start chunkSize : Nat) : String :=
  strSlice page start chunkSize ++
    (if start + chunkSize < page.length then "..." else "")

/-- Observable outcome of a `deepReadUrl` run. -/
structure DeepReadResult where
  chunks : List String
  /-- cache keys of every window requested, in order -/
  requests : List CacheKey
  /-- cache keys of the windows actually fetched through `read_url` -/
  fetches : List CacheKey
  cache : ReadCache
  deriving DecidableEq, Repr

/-- The Deep-Reader loop (chat-controller.js lines 878-930).  `fuel`
implements `chunkCount < maxChunks` (each continuing iteration increments
`chunkCount`).  Here `oracle qIdx` is the outcome of the current
"do you need more content" model call (`.error` = the caught transport
failure, which hard-stops the loop); a non-`gpt` model issues no call and
leaves the reply empty.  The nested `read_url` dispatch (with
`skipContinue: true`) is modeled by its retrieval effect `fetchSnippet`; its
history side effects and the (never-triggering, since successive windows have
distinct signatures) loop guard are outside this model. -/
def deepReadGo (selectedModel : String) (oracle : Nat → Except Unit String)
    (page url : String) (chunkSize maxTotalLength : Nat) :
    Nat → Nat → Nat → Nat → ReadCache → DeepReadResult
  | 0, _, _, _, cache => ⟨[], [], [], cache⟩
  | fuel + 1, start, totalLength, qIdx, cache =>
    if maxTotalLength ≤ totalLength then ⟨[], [], [], cache⟩
    else
      let key : CacheKey := (url, start, chunkSize)
      let hit := lookupCache cache key
      let snippet := match hit with
        | some v => v
        | none => fetchSnippet page start chunkSize
      let cache1 := match hit with
        | some _ => cache
        | none => (key, snippet) :: cache
      let fl : List CacheKey := match hit with
        | some _ => []
        | none => [key]
      if snippet = "" then ⟨[], [key], fl, cache1⟩
      else
        let total1 := totalLength + snippet.length
        let replyE := if strStartsWith selectedModel "gpt" then oracle qIdx else .ok ""
        match replyE with
        | .error _ => ⟨[snippet], [key], fl, cache1⟩
        | .ok r =>
          if strStartsWith (jsToLower (jsTrim r)) "yes" ∧ total1 < maxTotalLength then
            let rest := deepReadGo selectedModel oracle page url chunkSize
              maxTotalLength fuel (start + chunkSize) total1 (qIdx + 1) cache1
            ⟨snippet :: rest.chunks, key :: rest.requests, fl ++ rest.fetches,
              rest.cache⟩
          else ⟨[snippet], [key], fl, cache1⟩

/-- Entry point `deepReadUrl(url, maxChunks, chunkSize, maxTotalLength)` starting from the
current session cache. -/
def deepReadUrl (selectedModel : String) (oracle : Nat → Except Unit String)
    (page url : String) (maxChunks chunkSize maxTotalLength : Nat)
    (cache : ReadCache) : DeepReadResult :=
  deepReadGo selectedModel oracle page url chunkSize maxTotalLength
    maxChunks 0 0 0 cache

/-! ### Batch packing of the Summarizer -/

/-- Total character length of a list of snippets. -/
def sumLen (l : List String) : Nat := (l.map String.length).sum

/-- The loop body of `splitIntoBatches` (chat-controller.js lines 999-1016):
flush the current batch when the next snippet would overflow a non-empty
batch, then append the snippet. -/
def splitGo (maxLen : Nat) : List String → List String → Nat → List (List String)
  | [], currentBatch, _ => if currentBatch = [] then [] else [currentBatch]
  | snippet :: rest, currentBatch, currentLen =>
    if maxLen < currentLen + snippet.length ∧ currentBatch ≠ [] then
      currentBatch :: splitGo maxLen rest [snippet] snippet.length
    else
      splitGo maxLen rest (currentBatch ++ [snippet]) (currentLen + snippet.length)

/-- Packing function `splitIntoBatches(snippets, maxLen)`. -/
def splitIntoBatches (snippets : List String) (maxLen : Nat) : List (List String) :=
  splitGo maxLen snippets [] 0

/-- Budget `MAX_PROMPT_LENGTH` of `summarizeSnippets`. -/
def MAX_PROMPT_LENGTH : Nat := 5857

/-- Summarization model calls issued in the first round of
`summarizeSnippets(snippets)` (chat-controller.js lines 1019-1097): an empty
list returns immediately, a single snippet is summarized by one direct call,
otherwise one call per batch. -/
def summarizeRoundCalls (snippets : List String) : Nat :=
  if snippets = [] then 0
  else if snippets.length = 1 then 1
  else (splitIntoBatches snippets MAX_PROMPT_LENGTH).length

/-! ### Guard-automaton lemmas -/

theorem guardIter_same (sig : Sig) : ∀ (n : Nat) (c : Nat),
    guardIter sig n (some sig, c) = (some sig, c + n) := by
  intro n
  induction n with
  | zero => intro c; simp [guardIter]
  | succ n ih =>
      intro c
      have hstep : guardStep sig (some sig, c) = (some sig, c + 1) := by
        simp [guardStep]
      show guardIter sig n (guardStep sig (some sig, c)) = _
      rw [hstep, ih, Nat.add_assoc, Nat.add_comm 1 n]

theorem guardIter_fresh {sig : Sig} {g : Option Sig × Nat} (h : g.1 ≠ some sig)
    {i : Nat} (hi : 1 ≤ i) : guardIter sig i g = (some sig, i) := by
  obtain ⟨j, rfl⟩ : ∃ j, i = j + 1 := ⟨i - 1, (Nat.succ_pred_eq_of_pos hi).symm⟩
  show guardIter sig (j + 1) g = _
  simp only [guardIter, guardStep, if_neg h]
  rw [guardIter_same]
  simp [Nat.add_comm]

theorem guardStep_fresh {sig : Sig} {g : Option Sig × Nat} (h : g.1 ≠ some sig) :
    guardStep sig g = (some sig, 1) := by
  simp [guardStep, h]

/-- Claim C1, loop guard: starting from any guard state not already holding the
signature, when the same `(tool, args)` signature is processed `i` times
consecutively the counter reads `i` and the guard blocks exactly from the 4th
attempt on; a different signature resets the counter to 1; on a blocked
attempt both dispatchers emit the loop-detected error and return without
appending an audit entry or running any handler, while an allowed attempt
logs the call and runs the handler. -/
theorem c1_loop_guard_blocks_after_three :
    (∀ (sig : Sig) (g : Option Sig × Nat), g.1 ≠ some sig → ∀ i, 1 ≤ i →
      (guardIter sig i g).2 = i ∧ (guardBlocks (guardIter sig i g) ↔ 4 ≤ i))
    ∧ (∀ (sig : Sig) (g : Option Sig × Nat), g.1 ≠ some sig →
        guardStep sig g = (some sig, 1))
    ∧ (∀ (exec : ToolCall → AgentState → AgentState) (call : ToolCall)
        (s : AgentState), s.toolWorkflowActive = true →
        ¬(call.tool = "web_search" ∧ isBlank call.args.query) →
        guardBlocks (guardStep (callSig call) (s.lastToolCall, s.lastToolCallCount)) →
        processToolCall exec call s =
          pushUi .loopDetected
            { s with
              lastToolCall :=
                (guardStep (callSig call) (s.lastToolCall, s.lastToolCallCount)).1,
              lastToolCallCount :=
                (guardStep (callSig call) (s.lastToolCall, s.lastToolCallCount)).2 })
    ∧ (∀ (exec : ToolCall → AgentState → AgentState) (call : ToolCall)
        (s : AgentState), s.toolWorkflowActive = true →
        ¬(call.tool = "web_search" ∧ isBlank call.args.query) →
        ¬ guardBlocks (guardStep (callSig call) (s.lastToolCall, s.lastToolCallCount)) →
        processToolCall exec call s =
          exec call
            { s with
              lastToolCall :=
                (guardStep (callSig call) (s.lastToolCall, s.lastToolCallCount)).1,
              lastToolCallCount :=
                (guardStep (callSig call) (s.lastToolCall, s.lastToolCallCount)).2,
              toolCallHistory := s.toolCallHistory ++ [callSig call] })
    ∧ (∀ (exec : ToolCall → OrchState → OrchState) (call : ToolCall)
        (g : OrchState),
        guardBlocks (guardStep (callSig call) (g.lastToolCall, g.lastToolCallCount)) →
        orchProcessToolCall exec call g =
          { g with
            lastToolCall :=
              (guardStep (callSig call) (g.lastToolCall, g.lastToolCallCount)).1,
            lastToolCallCount :=
              (guardStep (callSig call) (g.lastToolCall, g.lastToolCallCount)).2,
            ui := g.ui ++ [.loopDetected] }) := by
  refine ⟨?_, ?_, ?_, ?_, ?_⟩
  · intro sig g h i hi
    rw [guardIter_fresh h hi]
    constructor
    · rfl
    · show MAX_TOOL_CALL_REPEAT < i ↔ 4 ≤ i
      unfold MAX_TOOL_CALL_REPEAT
      omega
  · intro sig g h
    exact guardStep_fresh h
  · intro exec call s hact hnb hblk
    have hb : MAX_TOOL_CALL_REPEAT
        < (guardStep (callSig call) (s.lastToolCall, s.lastToolCallCount)).2 := hblk
    unfold processToolCall
    rw [hact]
    simp only [Bool.true_eq_false, if_false, if_neg hnb]
    rw [if_pos hb]
  · intro exec call s hact hnb hblk
    have hb : ¬ MAX_TOOL_CALL_REPEAT
        < (guardStep (callSig call) (s.lastToolCall, s.lastToolCallCount)).2 := hblk
    unfold processToolCall
    rw [hact]
    simp only [Bool.true_eq_false, if_false, if_neg hnb]
    rw [if_neg hb]
  · intro exec call g hblk
    have hb : MAX_TOOL_CALL_REPEAT
        < (guardStep (callSig call) (g.lastToolCall, g.lastToolCallCount)).2 := hblk
    simp only [orchProcessToolCall]
    rw [if_pos hb]

/-- Witness for C1 at a concrete signature: four consecutive identical
`read_url` calls reach counter 4 and are blocked, while the third is not. -/
theorem c1_loop_guard_blocks_after_three_witness :
    ((guardIter ("read_url", { url := some "https://e.com" }) 4 (none, 0)).2 = 4
      ∧ (guardBlocks (guardIter ("read_url", { url := some "https://e.com" }) 4 (none, 0))
          ↔ 4 ≤ 4))
    ∧ guardStep ("read_url", { url := some "https://e.com" }) (none, 0)
        = (some ("read_url", { url := some "https://e.com" }), 1) := by
  constructor
  · exact c1_loop_guard_blocks_after_three.1
      ("read_url", { url := some "https://e.com" }) (none, 0) (by decide) 4 (by decide)
  · exact c1_loop_guard_blocks_after_three.2.1
      ("read_url", { url := some "https://e.com" }) (none, 0) (by decide)

/-- Claim C2, terminal transition: after `synthesizeFinalAnswer` with non-empty
summaries and a non-empty original question — whether the model call
succeeded or threw — `toolWorkflowActive` is false, every tool call processed
from the resulting state is a no-op (state returned unchanged, no handler
run), and the start of the next user turn re-arms the workflow. -/
theorem c2_synthesize_terminal (r : Except String String) (summaries : String)
    (s : AgentState) (hs : summaries ≠ "") (hq : s.originalUserQuestion ≠ "") :
    (synthesizeFinalAnswer r summaries s).toolWorkflowActive = false
    ∧ (∀ (exec : ToolCall → AgentState → AgentState) (call : ToolCall),
        processToolCall exec call (synthesizeFinalAnswer r summaries s)
          = synthesizeFinalAnswer r summaries s)
    ∧ (∀ m, m ≠ "" →
        (sendMessageStart m (synthesizeFinalAnswer r summaries s)).toolWorkflowActive
          = true) := by
  have hflag : (synthesizeFinalAnswer r summaries s).toolWorkflowActive = false := by
    unfold synthesizeFinalAnswer
    rw [if_neg (by simp [hs, hq])]
    cases r with
    | ok fa =>
        by_cases h : fa ≠ "" <;> simp [h, pushUi]
    | error e => simp [pushUi]
  refine ⟨hflag, ?_, ?_⟩
  · intro exec call
    unfold processToolCall
    rw [hflag]
    simp
  · intro m hm
    unfold sendMessageStart
    rw [if_neg hm]

/-- Witness for C2: a concrete synthesis failure still disables the workflow
and a subsequent `web_search` call leaves the state untouched. -/
theorem c2_synthesize_terminal_witness :
    (synthesizeFinalAnswer (.error "timeout") "sum"
        { originalUserQuestion := "Q" }).toolWorkflowActive = false
    ∧ processToolCall (fun _ t => pushUi .searchFallback t)
        ⟨"web_search", { query := some "q" }, false⟩
        (synthesizeFinalAnswer (.error "timeout") "sum" { originalUserQuestion := "Q" })
      = synthesizeFinalAnswer (.error "timeout") "sum" { originalUserQuestion := "Q" } := by
  have h := c2_synthesize_terminal (.error "timeout") "sum"
    { originalUserQuestion := "Q" } (by decide) (by decide)
  exact ⟨h.1, h.2.1 _ _⟩

/-- Claim C10, blocked-attempt atomicity: when the loop guard blocks a call, no
audit entry is appended, the conversation history and all other orchestrator
state are unchanged, the error goes only to the UI layer, and only the
counter of the guard itself advances — in both dispatcher modules. -/
theorem c10_blocked_attempt_frame (exec : ToolCall → AgentState → AgentState)
    (call : ToolCall) (s : AgentState)
    (hact : s.toolWorkflowActive = true)
    (hnb : ¬(call.tool = "web_search" ∧ isBlank call.args.query))
    (hsig : s.lastToolCall = some (callSig call))
    (hcnt : MAX_TOOL_CALL_REPEAT ≤ s.lastToolCallCount) :
    ((processToolCall exec call s).toolCallHistory = s.toolCallHistory
      ∧ (processToolCall exec call s).chatHistory = s.chatHistory
      ∧ (processToolCall exec call s).readSnippets = s.readSnippets
      ∧ (processToolCall exec call s).originalUserQuestion = s.originalUserQuestion
      ∧ (processToolCall exec call s).toolWorkflowActive = s.toolWorkflowActive
      ∧ (processToolCall exec call s).fetchLog = s.fetchLog
      ∧ (processToolCall exec call s).ui = s.ui ++ [.loopDetected]
      ∧ (processToolCall exec call s).lastToolCall = s.lastToolCall
      ∧ (processToolCall exec call s).lastToolCallCount = s.lastToolCallCount + 1)
    ∧ ∀ (exec2 : ToolCall → OrchState → OrchState) (g : OrchState),
        g.lastToolCall = some (callSig call) →
        MAX_TOOL_CALL_REPEAT ≤ g.lastToolCallCount →
        (orchProcessToolCall exec2 call g).toolCallHistory = g.toolCallHistory
          ∧ (orchProcessToolCall exec2 call g).ui = g.ui ++ [.loopDetected]
          ∧ (orchProcessToolCall exec2 call g).lastToolCallCount
              = g.lastToolCallCount + 1 := by
  have hstep : guardStep (callSig call) (s.lastToolCall, s.lastToolCallCount)
      = (s.lastToolCall, s.lastToolCallCount + 1) := by
    simp [guardStep, hsig]
  have hblk : guardBlocks (guardStep (callSig call) (s.lastToolCall, s.lastToolCallCount)) := by
    rw [hstep]; show MAX_TOOL_CALL_REPEAT < s.lastToolCallCount + 1; omega
  have hmain := c1_loop_guard_blocks_after_three.2.2.1 exec call s hact hnb hblk
  constructor
  · rw [hmain, hstep]
    simp [pushUi]
  · intro exec2 g hsig2 hcnt2
    have hstep2 : guardStep (callSig call) (g.lastToolCall, g.lastToolCallCount)
        = (g.lastToolCall, g.lastToolCallCount + 1) := by
      simp [guardStep, hsig2]
    have hblk2 : guardBlocks (guardStep (callSig call) (g.lastToolCall, g.lastToolCallCount)) := by
      rw [hstep2]; show MAX_TOOL_CALL_REPEAT < g.lastToolCallCount + 1; omega
    have h2 := c1_loop_guard_blocks_after_three.2.2.2.2 exec2 call g hblk2
    rw [h2, hstep2]
    simp

/-- Witness for C10: with the counter already at the threshold, the blocked
fourth identical call leaves the audit log empty and only bumps the counter. -/
theorem c10_blocked_attempt_frame_witness :
    (processToolCall (fun _ t => t) ⟨"read_url", { url := some "https://e.com" }, false⟩
        { lastToolCall := some ("read_url", { url := some "https://e.com" }),
          lastToolCallCount := 3 }).toolCallHistory = []
    ∧ (processToolCall (fun _ t => t) ⟨"read_url", { url := some "https://e.com" }, false⟩
        { lastToolCall := some ("read_url", { url := some "https://e.com" }),
          lastToolCallCount := 3 }).lastToolCallCount = 4 := by
  have h := c10_blocked_attempt_frame (fun _ t => t)
    ⟨"read_url", { url := some "https://e.com" }, false⟩
    { lastToolCall := some ("read_url", { url := some "https://e.com" }),
      lastToolCallCount := 3 } rfl (by decide) rfl (by decide)
  exact ⟨h.1.1, h.1.2.2.2.2.2.2.2.2⟩

/-- Claim C8, read_url slicing: an invalid URL is rejected without fetching;
otherwise, with `start` defaulting to 0 when missing or negative and `length`
defaulting to 1122 when missing or non-positive, the snippet is the page text
over `[start, start + length)`, the history entry carries the trailing `...`
marker exactly when `start + length < page length` (`hasMore`), the rendered
read-result carries the same `hasMore` flag, and the raw snippet is appended
to the snippet accumulator. -/
theorem c8_read_url_slicing (fetch : Except String String) (args : ToolArgs)
    (s : AgentState) :
    (validReadUrl args.url = false →
      readUrlHandler fetch args s = pushUi .invalidReadUrl s)
    ∧ (defaultStart none = 0 ∧ (∀ v : Int, v < 0 → defaultStart (some v) = 0)
        ∧ (∀ v : Int, 0 ≤ v → defaultStart (some v) = v.toNat)
        ∧ defaultLength none = 1122
        ∧ (∀ v : Int, v ≤ 0 → defaultLength (some v) = 1122)
        ∧ (∀ v : Int, 0 < v → defaultLength (some v) = v.toNat))
    ∧ (∀ page, validReadUrl args.url = true → fetch = .ok page →
        (readUrlHandler fetch args s).readSnippets
            = s.readSnippets
              ++ [strSlice page (defaultStart args.start) (defaultLength args.length)]
        ∧ (readUrlHandler fetch args s).chatHistory
            = s.chatHistory ++ [⟨"assistant",
                "Read content from " ++ args.url.getD "" ++ ":\n"
                  ++ strSlice page (defaultStart args.start) (defaultLength args.length)
                  ++ (if defaultStart args.start + defaultLength args.length < page.length
                      then "..." else "")⟩]
        ∧ (readUrlHandler fetch args s).ui
            = s.ui ++ [.readResult (args.url.getD "")
                (strSlice page (defaultStart args.start) (defaultLength args.length))
                (decide (defaultStart args.start + defaultLength args.length < page.length))]
        ∧ (readUrlHandler fetch args s).fetchLog = s.fetchLog ++ [args.url.getD ""]
        ∧ strSlice page (defaultStart args.start) (defaultLength args.length)
            = String.mk ((page.data.drop (defaultStart args.start)).take
                (defaultLength args.length))) := by
  refine ⟨?_, ⟨rfl, ?_, ?_, rfl, ?_, ?_⟩, ?_⟩
  · intro h
    unfold readUrlHandler
    rw [if_pos h]
  · intro v hv
    simp only [defaultStart]
    rw [if_neg (by omega)]
  · intro v hv
    simp only [defaultStart]
    rw [if_pos hv]
  · intro v hv
    simp only [defaultLength]
    rw [if_neg (by omega)]
  · intro v hv
    simp only [defaultLength]
    rw [if_pos hv]
  · intro page hvalid hfetch
    subst hfetch
    unfold readUrlHandler
    rw [hvalid]
    simp [pushUi, pushHist, strSlice]

/-- Witness for C8 at a concrete page and window. -/
theorem c8_read_url_slicing_witness :
    (readUrlHandler (.ok "hello world")
        { url := some "https://e.com", start := some 2, length := some 5 }
        {}).readSnippets = ["llo w"]
    ∧ (readUrlHandler (.ok "hello world")
        { url := some "https://e.com", start := some 2, length := some 5 }
        {}).chatHistory
      = [⟨"assistant", "Read content from https://e.com:\nllo w..."⟩] := by
  have h := (c8_read_url_slicing (.ok "hello world")
    { url := some "https://e.com", start := some 2, length := some 5 } {}).2.2
    "hello world" (by decide) rfl
  refine ⟨?_, ?_⟩
  · rw [h.1]; decide
  · rw [h.2.1]; decide

/-- Every retry-loop entry first records the query it searches, so a run with
positive fuel has the entry query as its first attempt. -/
theorem webSearchLoop_attempts_cons (m : String)
    (sO : Nat → Except String (List SearchResult)) (aO rO : Nat → String)
    (aq : Option String) :
    ∀ (fuel : Nat) (q : String) (idx : Nat) (acc : WSOut), 0 < fuel →
      ∃ rest, (webSearchLoop m sO aO rO aq fuel q idx acc).attempts
        = acc.attempts ++ q :: rest := by
  intro fuel
  induction fuel with
  | zero => intro q idx acc h; exact absurd h (by omega)
  | succ n ih =>
    intro q idx acc _
    simp only [webSearchLoop]
    cases hs : sO idx with
    | error e => exact ⟨[], by simp⟩
    | ok results =>
      dsimp only
      by_cases hres : results = []
      · refine ⟨[], ?_⟩
        rw [if_pos hres]
      · rw [if_neg hres]
        by_cases ha : (assessSearchQuality m
            (aO ({ acc with attempts := acc.attempts ++ [q] } : WSOut).assessorInvocations)).1 = true
        · rw [if_pos ha]
          exact ⟨[], by simp⟩
        · rw [if_neg ha]
          by_cases hn : 0 < n
          · rw [if_pos hn]
            obtain ⟨rest, hrest⟩ := ih ((getRefinedQuery m (rO acc.refinerInvocations)).1)
              (idx + 1) _ hn
            rw [hrest]
            exact ⟨(getRefinedQuery m (rO acc.refinerInvocations)).1 :: rest, by simp⟩
          · rw [if_neg hn]
            exact ⟨[], by simp⟩

/-- The retry loop never emits the invalid-query message: it only adds
transport-failure, no-results and not-relevant messages. -/
theorem webSearchLoop_ui_invalidQuery (m : String)
    (sO : Nat → Except String (List SearchResult)) (aO rO : Nat → String)
    (aq : Option String) :
    ∀ (fuel : Nat) (q : String) (idx : Nat) (acc : WSOut),
      UiMsg.invalidQuery ∈ (webSearchLoop m sO aO rO aq fuel q idx acc).ui →
      UiMsg.invalidQuery ∈ acc.ui := by
  intro fuel
  induction fuel with
  | zero => intro q idx acc h; exact h
  | succ n ih =>
    intro q idx acc h
    simp only [webSearchLoop] at h
    cases hs : sO idx with
    | error e =>
        rw [hs] at h
        dsimp only at h
        simpa using h
    | ok results =>
        rw [hs] at h
        dsimp only at h
        by_cases hres : results = []
        · rw [if_pos hres] at h
          simpa using h
        · rw [if_neg hres] at h
          by_cases ha : (assessSearchQuality m (aO acc.assessorInvocations)).1 = true
          · rw [if_pos ha] at h
            exact h
          · rw [if_neg ha] at h
            by_cases hn : 0 < n
            · rw [if_pos hn] at h
              have h2 := ih _ (idx + 1) _ h
              exact h2
            · rw [if_neg hn] at h
              simpa using h

/-- Claim C3 counterexample: a dispatched `web_search` call with a blank query
and non-empty `originalUserQuestion = "X"` is rejected by the blank-query
guard of `processToolCall` with an error message, before the recovery logic
can run — no search is executed, contradicting the claim that every
dispatched blank-query `web_search` recovers via `originalUserQuestion`. -/
theorem c3_dispatched_blank_query_counterexample :
    processToolCall (fun _ t => { t with fetchLog := t.fetchLog ++ ["searched"] })
        ⟨"web_search", { query := some "" }, false⟩
        { originalUserQuestion := "X" }
      = pushUi .emptyQueryError { originalUserQuestion := "X" }
    ∧ (processToolCall (fun _ t => { t with fetchLog := t.fetchLog ++ ["searched"] })
        ⟨"web_search", { query := some "" }, false⟩
        { originalUserQuestion := "X" }).fetchLog = [] := by
  constructor <;> decide

/-- A `lastUserMessage` hit always has non-blank content (that is what the
scan selects). -/
theorem lastUserMessage_trim {hist : List Message} {msg : String}
    (h : lastUserMessage hist = some msg) : jsTrim msg ≠ "" := by
  unfold lastUserMessage at h
  obtain ⟨mrec, hfind, hcontent⟩ := Option.map_eq_some'.mp h
  have hp := List.find?_some hfind
  simp only [decide_eq_true_eq] at hp
  rw [← hcontent]
  exact hp.2

/-- Main path of the `web_search` handler once some non-blank query `q` has
been determined: the first search attempt uses `q` and the invalid-query
error is never emitted. -/
theorem webSearchHandler_main (m : String)
    (sO : Nat → Except String (List SearchResult)) (aO rO : Nat → String)
    (args : ToolArgs) (origQ : String) (hist : List Message) (q : String)
    (hquery : (if isBlank args.query then
        (if jsTrim origQ ≠ "" then some origQ
         else match lastUserMessage hist with
           | some mm => some mm
           | none => args.query)
      else args.query) = some q)
    (hnb : jsTrim q ≠ "") :
    (∃ rest, (webSearchHandler m sO aO rO args origQ hist).attempts = q :: rest)
    ∧ UiMsg.invalidQuery ∉ (webSearchHandler m sO aO rO args origQ hist).ui := by
  have hblank : isBlank (some q) = false := by
    simp [isBlank, hnb]
  simp only [webSearchHandler]
  rw [hquery, hblank]
  simp only [Bool.false_eq_true, if_false, Option.getD_some]
  obtain ⟨rest, hrest⟩ :=
    webSearchLoop_attempts_cons m sO aO rO args.query 3 q 0 {} (by omega)
  constructor
  · refine ⟨rest, ?_⟩
    split <;> split <;> simp_all
  · intro hmem
    have hin : UiMsg.invalidQuery
        ∈ (webSearchLoop m sO aO rO args.query 3 q 0 {}).ui := by
      revert hmem
      split <;> split <;> simp_all
    have h0 := webSearchLoop_ui_invalidQuery m sO aO rO args.query 3 q 0 {} hin
    simp at h0

/-- Claim C3 amended, query recovery at the handler level: when the
`web_search` handler itself is entered with a missing/blank query it recovers
the query from a non-empty `originalUserQuestion`, else from the most recent
non-blank user message in history, executes the search with the recovered
text and emits no invalid-query error; only when no recovery source exists
does it fail visibly and abort.  However, a blank-query `web_search`
dispatched through `processToolCall` is rejected by the dispatcher own
guard with an error before the handler runs. -/
theorem c3_query_recovery :
    (∀ (m : String) (sO : Nat → Except String (List SearchResult))
      (aO rO : Nat → String) (args : ToolArgs) (origQ : String)
      (hist : List Message),
      isBlank args.query = true → jsTrim origQ ≠ "" →
        (∃ rest, (webSearchHandler m sO aO rO args origQ hist).attempts
            = origQ :: rest)
        ∧ UiMsg.invalidQuery ∉ (webSearchHandler m sO aO rO args origQ hist).ui)
    ∧ (∀ (m : String) (sO : Nat → Except String (List SearchResult))
      (aO rO : Nat → String) (args : ToolArgs) (origQ : String)
      (hist : List Message) (msg : String),
      isBlank args.query = true → jsTrim origQ = "" →
      lastUserMessage hist = some msg →
        (∃ rest, (webSearchHandler m sO aO rO args origQ hist).attempts
            = msg :: rest)
        ∧ UiMsg.invalidQuery ∉ (webSearchHandler m sO aO rO args origQ hist).ui)
    ∧ (∀ (m : String) (sO : Nat → Except String (List SearchResult))
      (aO rO : Nat → String) (args : ToolArgs) (origQ : String)
      (hist : List Message),
      isBlank args.query = true → jsTrim origQ = "" →
      lastUserMessage hist = none →
        webSearchHandler m sO aO rO args origQ hist = { ui := [.invalidQuery] })
    ∧ (∀ (exec : ToolCall → AgentState → AgentState) (call : ToolCall)
      (s : AgentState),
      s.toolWorkflowActive = true → call.tool = "web_search" →
      isBlank call.args.query = true →
        processToolCall exec call s = pushUi .emptyQueryError s) := by
  refine ⟨?_, ?_, ?_, ?_⟩
  · intro m sO aO rO args origQ hist h1 h2
    refine webSearchHandler_main m sO aO rO args origQ hist origQ ?_ h2
    rw [if_pos h1, if_pos h2]
  · intro m sO aO rO args origQ hist msg h1 h2 h3
    refine webSearchHandler_main m sO aO rO args origQ hist msg ?_
      (lastUserMessage_trim h3)
    rw [if_pos h1, if_neg (by simp [h2]), h3]
  · intro m sO aO rO args origQ hist h1 h2 h3
    have hquery : (if isBlank args.query then
        (if jsTrim origQ ≠ "" then some origQ
         else match lastUserMessage hist with
           | some mm => some mm
           | none => args.query)
      else args.query) = args.query := by
      rw [if_pos h1, if_neg (by simp [h2]), h3]
    simp only [webSearchHandler]
    rw [hquery, if_pos h1]
  · intro exec call s hact htool hq
    unfold processToolCall
    rw [hact]
    simp only [Bool.true_eq_false, if_false]
    rw [if_pos ⟨htool, hq⟩]

/-- Witness for the amended C3 at concrete inputs: a blank-query handler call
with `originalUserQuestion = "X"` searches for `"X"`, and one with an empty
question recovers the last user message. -/
theorem c3_query_recovery_witness :
    (∃ rest, (webSearchHandler "gpt-4" (fun _ => .ok []) (fun _ => "yes")
        (fun _ => "r") { query := some "" } "X" []).attempts = "X" :: rest)
    ∧ (∃ rest, (webSearchHandler "gpt-4" (fun _ => .ok []) (fun _ => "yes")
        (fun _ => "r") { query := some "" } ""
        [⟨"user", "capital of France"⟩]).attempts = "capital of France" :: rest)
    ∧ webSearchHandler "gpt-4" (fun _ => .ok []) (fun _ => "yes")
        (fun _ => "r") { query := some "" } "" [] = { ui := [.invalidQuery] } := by
  refine ⟨?_, ?_, ?_⟩
  · exact (c3_query_recovery.1 "gpt-4" (fun _ => .ok []) (fun _ => "yes")
      (fun _ => "r") { query := some "" } "X" [] (by decide) (by decide)).1
  · exact (c3_query_recovery.2.1 "gpt-4" (fun _ => .ok []) (fun _ => "yes")
      (fun _ => "r") { query := some "" } "" [⟨"user", "capital of France"⟩]
      "capital of France" (by decide) (by decide) (by decide)).1
  · exact c3_query_recovery.2.2.1 "gpt-4" (fun _ => .ok []) (fun _ => "yes")
      (fun _ => "r") { query := some "" } "" [] (by decide) (by decide) (by decide)

/-- One retry-loop iteration whose search returns zero results (without a
transport error) reports "no results" and terminates the loop at once. -/
theorem webSearchLoop_succ_empty (m : String)
    (sO : Nat → Except String (List SearchResult)) (aO rO : Nat → String)
    (aq : Option String) (fuel : Nat) (q : String) (idx : Nat) (acc : WSOut)
    (h0 : sO idx = .ok []) :
    webSearchLoop m sO aO rO aq (fuel + 1) q idx acc
      = { acc with attempts := acc.attempts ++ [q],
                   allSearchUrls := addUrls acc.allSearchUrls [],
                   ui := acc.ui ++ [.noResults q], finalQuery := q } := by
  simp only [webSearchLoop]
  rw [h0]
  dsimp only
  rw [if_pos rfl]
  simp

/-- Claim C7, zero-result search: if the first search attempt returns an empty
result list without a transport error, the handler emits exactly one
"no results" message, the retry loop stops after that single attempt, and
neither the quality assessor nor the query refiner is ever invoked (the run
then proceeds to the no-tools fallback). -/
theorem c7_zero_results (m : String)
    (sO : Nat → Except String (List SearchResult)) (aO rO : Nat → String)
    (args : ToolArgs) (origQ : String) (hist : List Message) (q : String)
    (hq : args.query = some q) (hnb : jsTrim q ≠ "") (h0 : sO 0 = .ok []) :
    (webSearchHandler m sO aO rO args origQ hist).ui
        = [.noResults q, .searchFallback]
    ∧ ((webSearchHandler m sO aO rO args origQ hist).ui.count (.noResults q) = 1)
    ∧ (webSearchHandler m sO aO rO args origQ hist).assessorInvocations = 0
    ∧ (webSearchHandler m sO aO rO args origQ hist).refinerInvocations = 0
    ∧ (webSearchHandler m sO aO rO args origQ hist).attempts = [q]
    ∧ (webSearchHandler m sO aO rO args origQ hist).fallbackTaken = true := by
  have hblank2 : isBlank (some q) = false := by simp [isBlank, hnb]
  have hloop := webSearchLoop_succ_empty m sO aO rO (some q) 2 q 0 {} h0
  have h3 : (3 : Nat) = 2 + 1 := rfl
  simp only [webSearchHandler, hq, hblank2, Bool.false_eq_true, if_false,
    Option.getD_some, h3]
  rw [hloop]
  simp [addUrls, List.count_cons]

/-- Witness for C7 at concrete inputs. -/
theorem c7_zero_results_witness :
    (webSearchHandler "gpt-4" (fun _ => .ok []) (fun _ => "yes") (fun _ => "r")
        { query := some "capital of France" } "" []).ui
      = [.noResults "capital of France", .searchFallback]
    ∧ (webSearchHandler "gpt-4" (fun _ => .ok []) (fun _ => "yes") (fun _ => "r")
        { query := some "capital of France" } "" []).assessorInvocations = 0 := by
  have h := c7_zero_results "gpt-4" (fun _ => .ok []) (fun _ => "yes") (fun _ => "r")
    { query := some "capital of France" } "" [] "capital of France"
    rfl (by decide) rfl
  exact ⟨h.1, h.2.2.1⟩

/-- One retry-loop iteration with non-empty results, a negative quality
verdict and retries remaining: refine the query and continue. -/
theorem webSearchLoop_succ_retry (m : String)
    (sO : Nat → Except String (List SearchResult)) (aO rO : Nat → String)
    (aq : Option String) (fuel : Nat) (q : String) (idx : Nat) (acc : WSOut)
    (res : List SearchResult) (h0 : sO idx = .ok res) (hres : res ≠ [])
    (ha : (assessSearchQuality m (aO acc.assessorInvocations)).1 = false)
    (hn : 0 < fuel) :
    webSearchLoop m sO aO rO aq (fuel + 1) q idx acc
      = webSearchLoop m sO aO rO aq fuel
          (getRefinedQuery m (rO acc.refinerInvocations)).1 (idx + 1)
          { acc with attempts := acc.attempts ++ [q],
                     allResults := acc.allResults ++ res,
                     allSearchUrls := addUrls acc.allSearchUrls res,
                     assessorInvocations := acc.assessorInvocations + 1,
                     refinerInvocations := acc.refinerInvocations + 1,
                     apiCalls := acc.apiCalls
                       + (assessSearchQuality m (aO acc.assessorInvocations)).2
                       + (getRefinedQuery m (rO acc.refinerInvocations)).2 } := by
  simp only [webSearchLoop]
  rw [h0]
  dsimp only
  rw [if_neg hres, if_neg (by simp [ha]), if_pos hn]

/-- The last retry-loop iteration with non-empty results and a negative
quality verdict: report "not relevant" and stop. -/
theorem webSearchLoop_one_notRelevant (m : String)
    (sO : Nat → Except String (List SearchResult)) (aO rO : Nat → String)
    (aq : Option String) (q : String) (idx : Nat) (acc : WSOut)
    (res : List SearchResult) (h0 : sO idx = .ok res) (hres : res ≠ [])
    (ha : (assessSearchQuality m (aO acc.assessorInvocations)).1 = false) :
    webSearchLoop m sO aO rO aq 1 q idx acc
      = { acc with attempts := acc.attempts ++ [q],
                   allResults := acc.allResults ++ res,
                   allSearchUrls := addUrls acc.allSearchUrls res,
                   assessorInvocations := acc.assessorInvocations + 1,
                   apiCalls := acc.apiCalls
                     + (assessSearchQuality m (aO acc.assessorInvocations)).2,
                   ui := acc.ui ++ [.notRelevant aq], finalQuery := q } := by
  show webSearchLoop m sO aO rO aq (0 + 1) q idx acc = _
  simp only [webSearchLoop]
  rw [h0]
  dsimp only
  rw [if_neg hres, if_neg (by simp [ha]), if_neg (by omega)]

/-- Claim C9, model-family gap in the quality loop: for a selected model whose
identifier does not start with `gpt`, `assessSearchQuality` returns `false`
without issuing any model call and `getRefinedQuery` returns the empty
string; consequently a `web_search` whose three attempts all return non-empty
results never exits the loop through a positive verdict, exhausts the full
retry budget with the refined query degenerating to `""`, and ends with the
"not relevant" report. -/
theorem c9_model_family_gap (m : String) (hm : strStartsWith m "gpt" = false) :
    (∀ r, assessSearchQuality m r = (false, 0))
    ∧ (∀ r, getRefinedQuery m r = ("", 0))
    ∧ ∀ (sO : Nat → Except String (List SearchResult)) (aO rO : Nat → String)
      (args : ToolArgs) (origQ : String) (hist : List Message) (q : String)
      (res0 res1 res2 : List SearchResult),
      args.query = some q → jsTrim q ≠ "" →
      sO 0 = .ok res0 → res0 ≠ [] → sO 1 = .ok res1 → res1 ≠ [] →
      sO 2 = .ok res2 → res2 ≠ [] →
        (webSearchHandler m sO aO rO args origQ hist).attempts = [q, "", ""]
        ∧ UiMsg.notRelevant (some q) ∈ (webSearchHandler m sO aO rO args origQ hist).ui
        ∧ (webSearchHandler m sO aO rO args origQ hist).assessorInvocations = 3
        ∧ (webSearchHandler m sO aO rO args origQ hist).refinerInvocations = 2
        ∧ (webSearchHandler m sO aO rO args origQ hist).apiCalls = 0
        ∧ (webSearchHandler m sO aO rO args origQ hist).suggestCalled = true := by
  have hassess : ∀ r, assessSearchQuality m r = (false, 0) := by
    intro r
    simp only [assessSearchQuality, hm, Bool.false_eq_true, if_false]
    decide
  have hrefine : ∀ r, getRefinedQuery m r = ("", 0) := by
    intro r
    simp [getRefinedQuery, hm]
  refine ⟨hassess, hrefine, ?_⟩
  intro sO aO rO args origQ hist q res0 res1 res2 hq hnb h0 hres0 h1 hres1 h2 hres2
  have hblank2 : isBlank (some q) = false := by simp [isBlank, hnb]
  have hstep0 := webSearchLoop_succ_retry m sO aO rO (some q) 2 q 0 {} res0 h0 hres0
    (by rw [hassess]) (by omega)
  have h3 : (3 : Nat) = 2 + 1 := rfl
  simp only [webSearchHandler, hq, hblank2, Bool.false_eq_true, if_false,
    Option.getD_some, h3]
  rw [hstep0]
  simp only [hassess, hrefine]
  simp only [List.nil_append, Nat.zero_add, Nat.add_zero]
  rw [show (2 : Nat) = 1 + 1 from rfl,
    webSearchLoop_succ_retry m sO aO rO (some q) 1 "" 1
      ⟨[], [q], res0, addUrls [] res0, 1, 1, 0, false, false, false, ""⟩
      res1 h1 hres1 (by rw [hassess]) (by omega)]
  simp only [hassess, hrefine]
  simp only [Nat.add_zero, List.cons_append, List.nil_append,
    show (1 : Nat) + 1 = 2 from rfl]
  rw [webSearchLoop_one_notRelevant m sO aO rO (some q) "" 2
      ⟨[], [q, ""], res0 ++ res1, addUrls (addUrls [] res0) res1,
        2, 2, 0, false, false, false, ""⟩
      res2 h2 hres2 (by rw [hassess])]
  simp only [hassess, hrefine]
  refine ⟨?_, ?_, ?_, ?_, ?_, ?_⟩ <;> (split <;> split <;> simp_all)

/-- Witness for C9 at a concrete gemma model run. -/
theorem c9_model_family_gap_witness :
    assessSearchQuality "gemma-3" "yes" = (false, 0)
    ∧ getRefinedQuery "gemma-3" "good query" = ("", 0)
    ∧ (webSearchHandler "gemma-3" (fun _ => .ok [⟨"t", "https://u.com", "s"⟩])
        (fun _ => "yes") (fun _ => "better") { query := some "q0" } "" []).attempts
      = ["q0", "", ""] := by
  have h := c9_model_family_gap "gemma-3" (by decide)
  refine ⟨h.1 "yes", h.2.1 "good query", ?_⟩
  exact (h.2.2 (fun _ => .ok [⟨"t", "https://u.com", "s"⟩]) (fun _ => "yes")
    (fun _ => "better") { query := some "q0" } "" [] "q0"
    [⟨"t", "https://u.com", "s"⟩] [⟨"t", "https://u.com", "s"⟩]
    [⟨"t", "https://u.com", "s"⟩]
    rfl (by decide) rfl (by decide) rfl (by decide) rfl (by decide)).1

/-! ### Deep-Reader lemmas -/

theorem strSlice_length (s : String) (a b : Nat) : (strSlice s a b).length ≤ b := by
  show ((s.data.drop a).take b).length ≤ b
  simp [List.length_take]

theorem fetchSnippet_length (page : String) (a cs : Nat) :
    (fetchSnippet page a cs).length ≤ cs + 3 := by
  unfold fetchSnippet
  rw [String.length_append]
  have h1 := strSlice_length page a cs
  split
  · have : ("..." : String).length = 3 := rfl
    omega
  · have : ("" : String).length = 0 := rfl
    omega

/-- The cache is consistent for `(page, url, chunkSize)`: every hit on a key
of this run returns exactly the text `read_url` would recover. -/
def CacheGood (page url : String) (chunkSize : Nat) (cache : ReadCache) : Prop :=
  ∀ start v, lookupCache cache (url, start, chunkSize) = some v →
    v = fetchSnippet page start chunkSize

theorem lookupCache_cons (k : CacheKey) (v : String) (c : ReadCache) (k' : CacheKey) :
    lookupCache ((k, v) :: c) k' = if k = k' then some v else lookupCache c k' := by
  by_cases h : k = k' <;> simp [lookupCache, List.find?_cons, h]

theorem CacheGood.insert {page url : String} {cs : Nat} {cache : ReadCache}
    (h : CacheGood page url cs cache) (start : Nat) :
    CacheGood page url cs
      (((url, start, cs), fetchSnippet page start cs) :: cache) := by
  intro st v hv
  rw [lookupCache_cons] at hv
  by_cases hk : ((url, start, cs) : CacheKey) = (url, st, cs)
  · rw [if_pos hk] at hv
    have hst : start = st := by
      have := congrArg (fun p : CacheKey => p.2.1) hk
      simpa using this
    cases hv
    rw [hst]
  · rw [if_neg hk] at hv
    exact h st v hv

theorem deepReadGo_fetches_length (m : String) (oracle : Nat → Except Unit String)
    (page url : String) (cs mt : Nat) :
    ∀ (fuel start total qIdx : Nat) (cache : ReadCache),
      (deepReadGo m oracle page url cs mt fuel start total qIdx cache).fetches.length
        ≤ fuel := by
  intro fuel
  induction fuel with
  | zero => intro start total qIdx cache; simp [deepReadGo]
  | succ n ih =>
    intro start total qIdx cache
    simp only [deepReadGo]
    split
    · simp
    · cases hlk : lookupCache cache (url, start, cs) with
      | some v =>
          dsimp only
          split
          · simp
          · split
            · simp
            · split
              · have := ih (start + cs) (total + v.length) (qIdx + 1) cache
                simpa using Nat.le_succ_of_le this
              · simp
      | none =>
          dsimp only
          split
          · simp
          · split
            · simp
            · split
              · have := ih (start + cs)
                  (total + (fetchSnippet page start cs).length) (qIdx + 1)
                  (((url, start, cs), fetchSnippet page start cs) :: cache)
                simpa using this
              · simp

theorem deepReadGo_total_le (m : String) (oracle : Nat → Except Unit String)
    (page url : String) (cs mt : Nat) :
    ∀ (fuel start total qIdx : Nat) (cache : ReadCache),
      CacheGood page url cs cache → total < mt →
      total + sumLen (deepReadGo m oracle page url cs mt fuel start total
        qIdx cache).chunks < mt + cs + 3 := by
  intro fuel
  induction fuel with
  | zero =>
      intro start total qIdx cache _ htot
      simp [deepReadGo, sumLen]
      omega
  | succ n ih =>
    intro start total qIdx cache hc htot
    simp only [deepReadGo]
    rw [if_neg (by omega)]
    cases hlk : lookupCache cache (url, start, cs) with
    | some v =>
        have hv : v = fetchSnippet page start cs := hc start v hlk
        have hvl : v.length ≤ cs + 3 := by
          rw [hv]; exact fetchSnippet_length page start cs
        dsimp only
        split
        · simp [sumLen]; omega
        · split
          · simp [sumLen]; omega
          · split
            · rename_i hyes
              have hrec := ih (start + cs) (total + v.length) (qIdx + 1) cache hc hyes.2
              simp only [sumLen, List.map_cons, List.sum_cons] at hrec ⊢
              omega
            · simp [sumLen]; omega
    | none =>
        have hvl : (fetchSnippet page start cs).length ≤ cs + 3 :=
          fetchSnippet_length page start cs
        have hc1 : CacheGood page url cs
            (((url, start, cs), fetchSnippet page start cs) :: cache) :=
          hc.insert start
        dsimp only
        split
        · simp [sumLen]; omega
        · split
          · simp [sumLen]; omega
          · split
            · rename_i hyes
              have hrec := ih (start + cs) (total + (fetchSnippet page start cs).length)
                (qIdx + 1) _ hc1 hyes.2
              simp only [sumLen, List.map_cons, List.sum_cons] at hrec ⊢
              omega
            · simp [sumLen]; omega

/-- Claim C4 amended, Deep-Reader bounds at `maxChunks = 3, chunkSize = 100,
maxTotal = 250`: at most 3 underlying fetches are issued, and — because each
recovered chunk may carry up to `chunkSize + 3` characters (the slice plus
the `...` marker appended by `read_url`) and a new chunk is requested
whenever the running total is still strictly below 250 — the accumulated
text is bounded by `250 + 100 + 3 - 1 = 352` characters, not by 250. -/
theorem c4_deep_reader_bounds (m : String) (oracle : Nat → Except Unit String)
    (page url : String) (cache : ReadCache) (hc : CacheGood page url 100 cache) :
    (deepReadUrl m oracle page url 3 100 250 cache).fetches.length ≤ 3
    ∧ sumLen (deepReadUrl m oracle page url 3 100 250 cache).chunks ≤ 352 := by
  constructor
  · exact deepReadGo_fetches_length m oracle page url 100 250 3 0 0 0 cache
  · have h := deepReadGo_total_le m oracle page url 100 250 3 0 0 0 cache hc
      (by omega)
    unfold deepReadUrl
    omega

/-- Witness for the amended C4, starting from the empty cache. -/
theorem c4_deep_reader_bounds_witness :
    (deepReadUrl "gpt-4" (fun _ => .ok "yes") (String.mk (List.replicate 250 'a'))
        "https://e.com" 3 100 250 []).fetches.length ≤ 3
    ∧ sumLen (deepReadUrl "gpt-4" (fun _ => .ok "yes")
        (String.mk (List.replicate 250 'a'))
        "https://e.com" 3 100 250 []).chunks ≤ 352 :=
  c4_deep_reader_bounds "gpt-4" (fun _ => .ok "yes") _ "https://e.com" []
    (by intro st v hv; simp [lookupCache] at hv)

set_option maxRecDepth 100000 in
/-- Claim C4 counterexample: with the model always answering "yes" on a
250-character page, the run issues its full 3 fetches and accumulates
103 + 103 + 50 = 256 > 250 characters — the claimed 250-character cap on the
accumulated snippet text is violated (each chunk carries the trailing `...`
recovered from the `read_url` history entry, and the total is only checked
before a fetch, not after). -/
theorem c4_deep_reader_counterexample :
    (deepReadUrl "gpt-4" (fun _ => .ok "yes") (String.mk (List.replicate 250 'a'))
        "https://e.com" 3 100 250 []).fetches.length = 3
    ∧ 250 < sumLen (deepReadUrl "gpt-4" (fun _ => .ok "yes")
        (String.mk (List.replicate 250 'a')) "https://e.com" 3 100 250 []).chunks := by
  constructor <;> decide

/-- Reference (cache-free) behavior of the Deep-Reader: the chunks it returns
and the windows it requests, which under a consistent cache do not depend on
the cache contents. -/
def deepReadSpec (m : String) (oracle : Nat → Except Unit String)
    (page url : String) (cs mt : Nat) :
    Nat → Nat → Nat → Nat → (List String × List CacheKey)
  | 0, _, _, _ => ([], [])
  | fuel + 1, start, total, qIdx =>
    if mt ≤ total then ([], [])
    else
      let snip := fetchSnippet page start cs
      if snip = "" then ([], [(url, start, cs)])
      else
        match (if strStartsWith m "gpt" then oracle qIdx else .ok "") with
        | .error _ => ([snip], [(url, start, cs)])
        | .ok r =>
          if strStartsWith (jsToLower (jsTrim r)) "yes" ∧ total + snip.length < mt then
            let rest := deepReadSpec m oracle page url cs mt fuel (start + cs)
              (total + snip.length) (qIdx + 1)
            (snip :: rest.1, (url, start, cs) :: rest.2)
          else ([snip], [(url, start, cs)])

/-- Under a consistent cache, the Deep-Reader chunks and requested windows
coincide with the cache-free reference run. -/
theorem deepReadGo_spec (m : String) (oracle : Nat → Except Unit String)
    (page url : String) (cs mt : Nat) :
    ∀ (fuel start total qIdx : Nat) (cache : ReadCache),
      CacheGood page url cs cache →
      ((deepReadGo m oracle page url cs mt fuel start total qIdx cache).chunks,
       (deepReadGo m oracle page url cs mt fuel start total qIdx cache).requests)
        = deepReadSpec m oracle page url cs mt fuel start total qIdx := by
  intro fuel
  induction fuel with
  | zero => intro start total qIdx cache _; simp [deepReadGo, deepReadSpec]
  | succ n ih =>
    intro start total qIdx cache hc
    simp only [deepReadGo, deepReadSpec]
    by_cases hmt : mt ≤ total
    · rw [if_pos hmt, if_pos hmt]
    · rw [if_neg hmt, if_neg hmt]
      cases hlk : lookupCache cache (url, start, cs) with
      | some v =>
          have hv : v = fetchSnippet page start cs := hc start v hlk
          dsimp only
          rw [hv]
          by_cases hemp : fetchSnippet page start cs = ""
          · rw [if_pos hemp, if_pos hemp]
          · rw [if_neg hemp, if_neg hemp]
            cases hrep : (if strStartsWith m "gpt" = true then oracle qIdx
                else Except.ok "") with
            | error e => rfl
            | ok r =>
                dsimp only
                by_cases hyes : strStartsWith (jsToLower (jsTrim r)) "yes" = true
                    ∧ total + (fetchSnippet page start cs).length < mt
                · rw [if_pos hyes, if_pos hyes]
                  have hrec := ih (start + cs) (total + (fetchSnippet page start cs).length)
                    (qIdx + 1) cache hc
                  dsimp only
                  rw [Prod.mk.injEq] at hrec ⊢
                  exact ⟨by rw [hrec.1], by rw [hrec.2]⟩
                · rw [if_neg hyes, if_neg hyes]
      | none =>
          dsimp only
          by_cases hemp : fetchSnippet page start cs = ""
          · rw [if_pos hemp, if_pos hemp]
          · rw [if_neg hemp, if_neg hemp]
            cases hrep : (if strStartsWith m "gpt" = true then oracle qIdx
                else Except.ok "") with
            | error e => rfl
            | ok r =>
                dsimp only
                by_cases hyes : strStartsWith (jsToLower (jsTrim r)) "yes" = true
                    ∧ total + (fetchSnippet page start cs).length < mt
                · rw [if_pos hyes, if_pos hyes]
                  have hrec := ih (start + cs) (total + (fetchSnippet page start cs).length)
                    (qIdx + 1) (((url, start, cs), fetchSnippet page start cs) :: cache)
                    (hc.insert start)
                  dsimp only
                  rw [Prod.mk.injEq] at hrec ⊢
                  exact ⟨by rw [hrec.1], by rw [hrec.2]⟩
                · rw [if_neg hyes, if_neg hyes]

/-- Cache invariants of a Deep-Reader run: lookups are preserved (entries are
never invalidated), every requested window ends up cached, fetched windows
were cache misses, every fetch was a request, and no window is fetched twice
within the run; consistency of the cache is preserved. -/
theorem deepReadGo_cache_inv (m : String) (oracle : Nat → Except Unit String)
    (page url : String) (cs mt : Nat) :
    ∀ (fuel start total qIdx : Nat) (cache : ReadCache),
      (∀ k v', lookupCache cache k = some v' →
        lookupCache (deepReadGo m oracle page url cs mt fuel start total qIdx
          cache).cache k = some v')
      ∧ (∀ k, k ∈ (deepReadGo m oracle page url cs mt fuel start total qIdx
            cache).requests →
          (lookupCache (deepReadGo m oracle page url cs mt fuel start total qIdx
            cache).cache k).isSome = true)
      ∧ (∀ k, k ∈ (deepReadGo m oracle page url cs mt fuel start total qIdx
            cache).fetches → lookupCache cache k = none)
      ∧ (∀ k, k ∈ (deepReadGo m oracle page url cs mt fuel start total qIdx
            cache).fetches →
          k ∈ (deepReadGo m oracle page url cs mt fuel start total qIdx
            cache).requests)
      ∧ (deepReadGo m oracle page url cs mt fuel start total qIdx
          cache).fetches.Nodup
      ∧ (CacheGood page url cs cache →
          CacheGood page url cs (deepReadGo m oracle page url cs mt fuel start
            total qIdx cache).cache) := by
  intro fuel
  induction fuel with
  | zero =>
      intro start total qIdx cache
      refine ⟨?_, ?_, ?_, ?_, ?_, ?_⟩ <;> simp [deepReadGo]
  | succ n ih =>
    intro start total qIdx cache
    simp only [deepReadGo]
    by_cases hmt : mt ≤ total
    · rw [if_pos hmt]
      refine ⟨?_, ?_, ?_, ?_, ?_, ?_⟩ <;> simp
    · rw [if_neg hmt]
      cases hlk : lookupCache cache (url, start, cs) with
      | some v =>
          dsimp only
          by_cases hemp : v = ""
          · rw [if_pos hemp]
            refine ⟨?_, ?_, ?_, ?_, ?_, ?_⟩ <;> simp [hlk]
          · rw [if_neg hemp]
            cases hrep : (if strStartsWith m "gpt" = true then oracle qIdx
                else Except.ok "") with
            | error e =>
                refine ⟨?_, ?_, ?_, ?_, ?_, ?_⟩ <;> simp [hlk]
            | ok r =>
                dsimp only
                by_cases hyes : strStartsWith (jsToLower (jsTrim r)) "yes" = true
                    ∧ total + v.length < mt
                · rw [if_pos hyes]
                  obtain ⟨iha, ihb, ihc, ihd, ihe, ihf⟩ :=
                    ih (start + cs) (total + v.length) (qIdx + 1) cache
                  refine ⟨?_, ?_, ?_, ?_, ?_, ?_⟩
                  · intro k v' h
                    exact iha k v' h
                  · intro k hk
                    rcases List.mem_cons.mp hk with hk | hk
                    · subst hk
                      rw [iha _ v hlk]
                      rfl
                    · exact ihb k hk
                  · intro k hk
                    simp only [List.nil_append] at hk
                    exact ihc k hk
                  · intro k hk
                    simp only [List.nil_append] at hk
                    exact List.mem_cons_of_mem _ (ihd k hk)
                  · simpa using ihe
                  · exact ihf
                · rw [if_neg hyes]
                  refine ⟨?_, ?_, ?_, ?_, ?_, ?_⟩ <;> simp [hlk]
      | none =>
          dsimp only
          have hkey : lookupCache (((url, start, cs), fetchSnippet page start cs)
              :: cache) (url, start, cs) = some (fetchSnippet page start cs) := by
            rw [lookupCache_cons, if_pos rfl]
          have hother : ∀ k : CacheKey, ((url, start, cs) : CacheKey) ≠ k →
              lookupCache (((url, start, cs), fetchSnippet page start cs) :: cache) k
                = lookupCache cache k := by
            intro k hk
            rw [lookupCache_cons, if_neg hk]
          by_cases hemp : fetchSnippet page start cs = ""
          · rw [if_pos hemp]
            refine ⟨?_, ?_, ?_, ?_, ?_, ?_⟩
            · intro k v' h
              have hne : ((url, start, cs) : CacheKey) ≠ k := by
                intro he
                rw [← he, hlk] at h
                cases h
              rw [hother k hne]
              exact h
            · intro k hk
              simp only [List.mem_singleton] at hk
              subst hk
              rw [hkey]
              rfl
            · intro k hk
              simp only [List.mem_singleton] at hk
              subst hk
              exact hlk
            · intro k hk
              exact hk
            · simp
            · intro hcg
              exact hcg.insert start
          · rw [if_neg hemp]
            cases hrep : (if strStartsWith m "gpt" = true then oracle qIdx
                else Except.ok "") with
            | error e =>
                refine ⟨?_, ?_, ?_, ?_, ?_, ?_⟩
                · intro k v' h
                  have hne : ((url, start, cs) : CacheKey) ≠ k := by
                    intro he
                    rw [← he, hlk] at h
                    cases h
                  rw [hother k hne]
                  exact h
                · intro k hk
                  simp only [List.mem_singleton] at hk
                  subst hk
                  rw [hkey]
                  rfl
                · intro k hk
                  simp only [List.mem_singleton] at hk
                  subst hk
                  exact hlk
                · intro k hk
                  exact hk
                · simp
                · intro hcg
                  exact hcg.insert start
            | ok r =>
                dsimp only
                by_cases hyes : strStartsWith (jsToLower (jsTrim r)) "yes" = true
                    ∧ total + (fetchSnippet page start cs).length < mt
                · rw [if_pos hyes]
                  obtain ⟨iha, ihb, ihc, ihd, ihe, ihf⟩ :=
                    ih (start + cs) (total + (fetchSnippet page start cs).length)
                      (qIdx + 1) (((url, start, cs), fetchSnippet page start cs) :: cache)
                  refine ⟨?_, ?_, ?_, ?_, ?_, ?_⟩
                  · intro k v' h
                    have hne : ((url, start, cs) : CacheKey) ≠ k := by
                      intro he
                      rw [← he, hlk] at h
                      cases h
                    exact iha k v' (by rw [hother k hne]; exact h)
                  · intro k hk
                    rcases List.mem_cons.mp hk with hk | hk
                    · subst hk
                      rw [iha _ (fetchSnippet page start cs) hkey]
                      rfl
                    · exact ihb k hk
                  · intro k hk
                    rcases List.mem_append.mp hk with hk | hk
                    · simp only [List.mem_singleton] at hk
                      subst hk
                      exact hlk
                    · have h1 := ihc k hk
                      by_cases hne : ((url, start, cs) : CacheKey) = k
                      · rw [← hne, hkey] at h1
                        cases h1
                      · rw [hother k hne] at h1
                        exact h1
                  · intro k hk
                    rcases List.mem_append.mp hk with hk | hk
                    · simp only [List.mem_singleton] at hk
                      subst hk
                      exact List.mem_cons_self _ _
                    · exact List.mem_cons_of_mem _ (ihd k hk)
                  · rw [List.singleton_append, List.nodup_cons]
                    refine ⟨?_, ihe⟩
                    intro hmem
                    have h1 := ihc _ hmem
                    rw [hkey] at h1
                    cases h1
                  · intro hcg
                    exact ihf (hcg.insert start)
                · rw [if_neg hyes]
                  refine ⟨?_, ?_, ?_, ?_, ?_, ?_⟩
                  · intro k v' h
                    have hne : ((url, start, cs) : CacheKey) ≠ k := by
                      intro he
                      rw [← he, hlk] at h
                      cases h
                    rw [hother k hne]
                    exact h
                  · intro k hk
                    simp only [List.mem_singleton] at hk
                    subst hk
                    rw [hkey]
                    rfl
                  · intro k hk
                    simp only [List.mem_singleton] at hk
                    subst hk
                    exact hlk
                  · intro k hk
                    exact hk
                  · simp
                  · intro hcg
                    exact hcg.insert start

/-- Claim C6, read cache: starting from any consistent session cache, a second
`deepReadUrl` run over the same `(url, start, length)` windows issues no
fetch at all — every window is served from the cache populated by the first
run, which fetched each missing window exactly once (its fetch list has no
duplicates and consists of previous cache misses); cache entries are never
invalidated (every previous lookup result survives the run), and the second
run returns the same chunks. -/
theorem c6_read_cache (m : String) (oracle : Nat → Except Unit String)
    (page url : String) (maxChunks cs mt : Nat) (cache : ReadCache)
    (hc : CacheGood page url cs cache) :
    (deepReadUrl m oracle page url maxChunks cs mt
        (deepReadUrl m oracle page url maxChunks cs mt cache).cache).fetches = []
    ∧ (deepReadUrl m oracle page url maxChunks cs mt
        (deepReadUrl m oracle page url maxChunks cs mt cache).cache).chunks
      = (deepReadUrl m oracle page url maxChunks cs mt cache).chunks
    ∧ (deepReadUrl m oracle page url maxChunks cs mt cache).fetches.Nodup
    ∧ (∀ k ∈ (deepReadUrl m oracle page url maxChunks cs mt cache).fetches,
        lookupCache cache k = none
        ∧ (lookupCache (deepReadUrl m oracle page url maxChunks cs mt cache).cache
            k).isSome = true)
    ∧ (∀ (k : CacheKey) (v' : String), lookupCache cache k = some v' →
        lookupCache (deepReadUrl m oracle page url maxChunks cs mt cache).cache k
          = some v') := by
  simp only [deepReadUrl]
  obtain ⟨inv1a, inv1b, inv1c, inv1d, inv1e, inv1f⟩ :=
    deepReadGo_cache_inv m oracle page url cs mt maxChunks 0 0 0 cache
  have hc1 : CacheGood page url cs
      (deepReadGo m oracle page url cs mt maxChunks 0 0 0 cache).cache := inv1f hc
  obtain ⟨inv2a, inv2b, inv2c, inv2d, inv2e, inv2f⟩ :=
    deepReadGo_cache_inv m oracle page url cs mt maxChunks 0 0 0
      (deepReadGo m oracle page url cs mt maxChunks 0 0 0 cache).cache
  have hspec1 := deepReadGo_spec m oracle page url cs mt maxChunks 0 0 0 cache hc
  have hspec2 := deepReadGo_spec m oracle page url cs mt maxChunks 0 0 0
    (deepReadGo m oracle page url cs mt maxChunks 0 0 0 cache).cache hc1
  have hpair := hspec2.trans hspec1.symm
  rw [Prod.mk.injEq] at hpair
  refine ⟨?_, hpair.1, inv1e, ?_, ?_⟩
  · rw [List.eq_nil_iff_forall_not_mem]
    intro k hk
    have hmiss := inv2c k hk
    have hreq : k ∈ (deepReadGo m oracle page url cs mt maxChunks 0 0 0
        cache).requests := by
      rw [← hpair.2]
      exact inv2d k hk
    have hsome := inv1b k hreq
    rw [hmiss] at hsome
    cases hsome
  · intro k hk
    refine ⟨inv1c k hk, inv1b k (inv1d k hk)⟩
  · intro k v' h
    exact inv1a k v' h

/-- Witness for C6: a concrete double run over a 350-character page, from the
empty cache. -/
theorem c6_read_cache_witness :
    (deepReadUrl "gpt-4" (fun _ => .ok "yes") (String.mk (List.replicate 350 'a'))
        "https://e.com" 3 100 250
        (deepReadUrl "gpt-4" (fun _ => .ok "yes")
          (String.mk (List.replicate 350 'a'))
          "https://e.com" 3 100 250 []).cache).fetches = []
    ∧ (deepReadUrl "gpt-4" (fun _ => .ok "yes") (String.mk (List.replicate 350 'a'))
        "https://e.com" 3 100 250 []).fetches.Nodup := by
  have h := c6_read_cache "gpt-4" (fun _ => .ok "yes")
    (String.mk (List.replicate 350 'a')) "https://e.com" 3 100 250 []
    (by intro st v hv; simp [lookupCache] at hv)
  exact ⟨h.1, h.2.2.1⟩

/-! ### Batch-packing lemmas -/

/-- A batch of an order-preserving partition is admissible when it fits the
budget or is a single (possibly oversized) snippet; batches are non-empty. -/
def validPartition (L : Nat) (P : List (List String)) : Prop :=
  ∀ b ∈ P, b ≠ [] ∧ (sumLen b ≤ L ∨ b.length = 1)

instance (L : Nat) (P : List (List String)) : Decidable (validPartition L P) := by
  unfold validPartition
  infer_instance

/-- Length of the maximal extension of the current batch (of accumulated
length `acc`) by a prefix of the remaining snippets without overflowing. -/
def firstFit (L : Nat) : Nat → List String → Nat
  | _, [] => 0
  | acc, s :: rest =>
      if L < acc + s.length then 0 else firstFit L (acc + s.length) rest + 1

theorem splitGo_join (L : Nat) :
    ∀ (rest cur : List String) (curLen : Nat),
      (splitGo L rest cur curLen).flatten = cur ++ rest := by
  intro rest
  induction rest with
  | nil =>
      intro cur curLen
      by_cases h : cur = [] <;> simp [splitGo, h]
  | cons s t ih =>
      intro cur curLen
      simp only [splitGo]
      split
      · simp [ih]
      · simp [ih]

theorem splitGo_single (L : Nat) :
    ∀ (rest cur : List String) (curLen : Nat), cur ≠ [] →
      curLen + sumLen rest ≤ L → splitGo L rest cur curLen = [cur ++ rest] := by
  intro rest
  induction rest with
  | nil =>
      intro cur curLen hne _
      simp [splitGo, hne]
  | cons s t ih =>
      intro cur curLen hne hsum
      have hs : s.length + sumLen t = sumLen (s :: t) := by simp [sumLen]
      simp only [splitGo]
      rw [if_neg (by simp only [sumLen, List.map_cons, List.sum_cons] at hsum; omega)]
      rw [ih (cur ++ [s]) (curLen + s.length) (by simp)
        (by simp only [sumLen, List.map_cons, List.sum_cons] at hsum ⊢; omega)]
      simp

theorem splitGo_valid (L : Nat) :
    ∀ (rest cur : List String) (curLen : Nat), curLen = sumLen cur → cur ≠ [] →
      (sumLen cur ≤ L ∨ cur.length = 1) →
      validPartition L (splitGo L rest cur curLen) := by
  intro rest
  induction rest with
  | nil =>
      intro cur curLen _ hne hok
      simp only [splitGo, if_neg hne]
      intro b hb
      simp only [List.mem_singleton] at hb
      subst hb
      exact ⟨hne, hok⟩
  | cons s t ih =>
      intro cur curLen hlen hne hok
      simp only [splitGo]
      split
      · rename_i hcond
        intro b hb
        rcases List.mem_cons.mp hb with hb | hb
        · subst hb
          exact ⟨hne, hok⟩
        · exact ih [s] s.length (by simp [sumLen]) (by simp) (by simp) b hb
      · rename_i hcond
        have hcase : curLen + s.length ≤ L ∨ cur = [] := by
          by_cases hc : cur = []
          · exact Or.inr hc
          · left
            by_contra hlt
            exact hcond ⟨by omega, hc⟩
        refine ih (cur ++ [s]) (curLen + s.length)
          (by simp [sumLen] at hlen ⊢; omega) (by simp) ?_
        rcases hcase with hc | hc
        · left
          simp only [sumLen, List.map_append, List.sum_append, List.map_cons,
            List.sum_cons, List.map_nil, List.sum_nil] at hlen ⊢
          omega
        · right
          subst hc
          simp

theorem splitGo_eq_firstFit (L : Nat) :
    ∀ (rest cur : List String) (curLen : Nat), cur ≠ [] →
      splitGo L rest cur curLen
        = (cur ++ rest.take (firstFit L curLen rest))
            :: splitGo L (rest.drop (firstFit L curLen rest)) [] 0 := by
  intro rest
  induction rest with
  | nil =>
      intro cur curLen hne
      simp [splitGo, firstFit, hne]
  | cons s t ih =>
      intro cur curLen hne
      by_cases hf : L < curLen + s.length
      · have h1 : splitGo L (s :: t) cur curLen = cur :: splitGo L t [s] s.length := by
          simp only [splitGo]
          rw [if_pos ⟨hf, hne⟩]
        have h2 : splitGo L (s :: t) [] 0 = splitGo L t [s] s.length := by
          simp only [splitGo]
          rw [if_neg (by simp)]
          simp
        rw [h1]
        simp only [firstFit, if_pos hf, List.take_zero, List.drop_zero,
          List.append_nil, h2]
      · have h1 : splitGo L (s :: t) cur curLen
            = splitGo L t (cur ++ [s]) (curLen + s.length) := by
          simp only [splitGo]
          rw [if_neg (by intro hco; exact hf hco.1)]
        rw [h1, ih (cur ++ [s]) (curLen + s.length) (by simp)]
        simp only [firstFit, if_neg hf, List.take_succ_cons, List.drop_succ_cons]
        simp

theorem firstFit_ge (L : Nat) :
    ∀ (q r : List String) (acc : Nat), acc + sumLen q ≤ L →
      q.length ≤ firstFit L acc (q ++ r) := by
  intro q
  induction q with
  | nil => intro r acc _; simp
  | cons a q' ih =>
      intro r acc hsum
      simp only [sumLen, List.map_cons, List.sum_cons] at hsum
      simp only [List.cons_append, firstFit, List.length_cons, List.append_eq]
      rw [if_neg (by omega)]
      have := ih r (acc + a.length) (by simp only [sumLen]; omega)
      omega

/-- Remove the first `k` snippets from the front of a partition, truncating
batches as needed. -/
def dropParts (k : Nat) : List (List String) → List (List String)
  | [] => []
  | p :: P => if k < p.length then p.drop k :: P else dropParts (k - p.length) P

theorem dropParts_flatten :
    ∀ (P : List (List String)) (k : Nat),
      (dropParts k P).flatten = P.flatten.drop k := by
  intro P
  induction P with
  | nil => intro k; simp [dropParts]
  | cons p P ih =>
      intro k
      simp only [dropParts]
      split
      · rename_i hk
        simp only [List.flatten_cons, List.drop_append_eq_append_drop]
        have h0 : k - p.length = 0 := by omega
        rw [h0, List.drop_zero]
      · rename_i hk
        rw [ih (k - p.length)]
        simp only [List.flatten_cons, List.drop_append_eq_append_drop]
        have hpk : p.drop k = [] := by
          rw [List.drop_eq_nil_iff]
          omega
        rw [hpk, List.nil_append]

theorem dropParts_length :
    ∀ (P : List (List String)) (k : Nat), (dropParts k P).length ≤ P.length := by
  intro P
  induction P with
  | nil => intro k; simp [dropParts]
  | cons p P ih =>
      intro k
      simp only [dropParts]
      split
      · simp
      · exact Nat.le_succ_of_le (ih (k - p.length))

theorem dropParts_valid (L : Nat) :
    ∀ (P : List (List String)) (k : Nat), validPartition L P →
      validPartition L (dropParts k P) := by
  intro P
  induction P with
  | nil => intro k _; simp [dropParts, validPartition]
  | cons p P ih =>
      intro k hv
      have hp := hv p (List.mem_cons_self _ _)
      have hP : validPartition L P := fun b hb => hv b (List.mem_cons_of_mem _ hb)
      simp only [dropParts]
      split
      · rename_i hk
        intro b hb
        rcases List.mem_cons.mp hb with hb | hb
        · subst hb
          refine ⟨?_, ?_⟩
          · intro hnil
            rw [List.drop_eq_nil_iff] at hnil
            omega
          · rcases hp.2 with hs | hs
            · left
              have hsplit : sumLen p = sumLen (p.take k) + sumLen (p.drop k) := by
                simp only [sumLen]
                rw [← List.sum_append, ← List.map_append, List.take_append_drop]
              omega
            · right
              have hk0 : k = 0 := by omega
              subst hk0
              simpa using hs
        · exact hP b hb
      · exact ih (k - p.length) hP

theorem splitIntoBatches_min (L : Nat) :
    ∀ (n : Nat) (l : List String), l.length ≤ n →
      ∀ P, validPartition L P → P.flatten = l →
        (splitIntoBatches l L).length ≤ P.length := by
  intro n
  induction n with
  | zero =>
      intro l hl P _ _
      have : l = [] := List.length_eq_zero.mp (by omega)
      subst this
      simp [splitIntoBatches, splitGo]
  | succ n ih =>
    intro l hl P hval hjoin
    cases l with
    | nil => simp [splitIntoBatches, splitGo]
    | cons s t =>
      cases P with
      | nil => simp at hjoin
      | cons p P2 =>
        have hp := hval p (List.mem_cons_self _ _)
        have hP2 : validPartition L P2 := fun b hb => hval b (List.mem_cons_of_mem _ hb)
        rw [List.flatten_cons] at hjoin
        cases p with
        | nil => exact absurd rfl hp.1
        | cons a q =>
          rw [List.cons_append] at hjoin
          have ha : a = s := (List.cons.injEq _ _ _ _).mp hjoin |>.1
          have hq : q ++ P2.flatten = t := (List.cons.injEq _ _ _ _).mp hjoin |>.2
          subst ha
          have hqk : q.length ≤ firstFit L a.length t := by
            rcases hp.2 with hs | hs
            · rw [← hq]
              refine firstFit_ge L q P2.flatten a.length ?_
              simp only [sumLen, List.map_cons, List.sum_cons] at hs
              simp only [sumLen]
              omega
            · simp only [List.length_cons] at hs
              have : q = [] := List.length_eq_zero.mp (by omega)
              subst this
              simp
          have hstruct : splitIntoBatches (a :: t) L
              = (a :: t.take (firstFit L a.length t))
                  :: splitIntoBatches (t.drop (firstFit L a.length t)) L := by
            show splitGo L (a :: t) [] 0 = _
            have h1 : splitGo L (a :: t) [] 0 = splitGo L t [a] a.length := by
              simp only [splitGo]
              rw [if_neg (by simp)]
              simp
            rw [h1, splitGo_eq_firstFit L t [a] a.length (by simp)]
            rfl
          rw [hstruct]
          simp only [List.length_cons]
          have hdropk : t.drop (firstFit L a.length t)
              = (dropParts (firstFit L a.length t - q.length) P2).flatten := by
            rw [dropParts_flatten]
            have h2 : P2.flatten = t.drop q.length := by
              rw [← hq]
              simp
            rw [h2, List.drop_drop]
            congr 1
            omega
          have hlen2 : (t.drop (firstFit L a.length t)).length ≤ n := by
            simp only [List.length_cons] at hl
            have := List.length_drop (firstFit L a.length t) t
            omega
          have hrec := ih (t.drop (firstFit L a.length t)) hlen2
            (dropParts (firstFit L a.length t - q.length) P2)
            (dropParts_valid L P2 _ hP2) hdropk.symm
          have hdp := dropParts_length P2 (firstFit L a.length t - q.length)
          omega

/-- Snippets whose total length fits the budget are packed into a single
batch containing all of them. -/
theorem splitIntoBatches_one (snippets : List String) (L : Nat)
    (hne : snippets ≠ []) (h : sumLen snippets ≤ L) :
    splitIntoBatches snippets L = [snippets] := by
  cases snippets with
  | nil => exact absurd rfl hne
  | cons s t =>
      show splitGo L (s :: t) [] 0 = _
      have h1 : splitGo L (s :: t) [] 0 = splitGo L t [s] s.length := by
        simp only [splitGo]
        rw [if_neg (by simp)]
        simp
      rw [h1, splitGo_single L t [s] s.length (by simp)
        (by simp only [sumLen, List.map_cons, List.sum_cons] at h ⊢; omega)]
      simp

/-- Claim C5, batch packing: concatenating the produced batches restores the
original snippet list in order; when the total length fits the prompt budget
the packing is a single batch (and the Summarizer's first round then issues
exactly one model call); every batch is non-empty and either fits the budget
or is a single oversized snippet; and greedy sequential packing is minimal —
no order-preserving partition into admissible batches uses fewer batches. -/
theorem c5_batch_packing (snippets : List String) (L : Nat)
    (hne : snippets ≠ []) :
    (splitIntoBatches snippets L).flatten = snippets
    ∧ (sumLen snippets ≤ L → splitIntoBatches snippets L = [snippets])
    ∧ (sumLen snippets ≤ MAX_PROMPT_LENGTH → summarizeRoundCalls snippets = 1)
    ∧ validPartition L (splitIntoBatches snippets L)
    ∧ (∀ P, validPartition L P → P.flatten = snippets →
        (splitIntoBatches snippets L).length ≤ P.length) := by
  refine ⟨?_, ?_, ?_, ?_, ?_⟩
  · have := splitGo_join L snippets [] 0
    simpa using this
  · intro h
    exact splitIntoBatches_one snippets L hne h
  · intro h
    unfold summarizeRoundCalls
    rw [if_neg hne]
    by_cases h1 : snippets.length = 1
    · rw [if_pos h1]
    · rw [if_neg h1, splitIntoBatches_one snippets MAX_PROMPT_LENGTH hne h]
      rfl
  · cases snippets with
    | nil => intro b hb; simp [splitIntoBatches, splitGo] at hb
    | cons s t =>
        show validPartition L (splitGo L (s :: t) [] 0)
        have h1 : splitGo L (s :: t) [] 0 = splitGo L t [s] s.length := by
          simp only [splitGo]
          rw [if_neg (by simp)]
          simp
        rw [h1]
        exact splitGo_valid L t [s] s.length (by simp [sumLen]) (by simp) (by simp)
  · intro P hval hjoin
    exact splitIntoBatches_min L snippets.length snippets le_rfl P hval hjoin

/-- Witness for C5 at concrete snippet lists and partitions. -/
theorem c5_batch_packing_witness :
    (splitIntoBatches ["ab", "cde"] 5).flatten = ["ab", "cde"]
    ∧ splitIntoBatches ["ab", "cde"] 5 = [["ab", "cde"]]
    ∧ (splitIntoBatches ["ab", "cde", "fg"] 5).length
        ≤ ([["ab", "cde"], ["fg"]] : List (List String)).length := by
  have h1 := c5_batch_packing ["ab", "cde"] 5 (by decide)
  have h2 := c5_batch_packing ["ab", "cde", "fg"] 5 (by decide)
  exact ⟨h1.1, h1.2.1 (by decide),
    h2.2.2.2.2 [["ab", "cde"], ["fg"]] (by decide) (by decide)⟩
